import Mathlib

/-!
# Verification of the fusectx resolver core

A shallow embedding of the `resolver` Go package of `hbelmiro/fusectx`:
frontmatter parsing (`ParseFrontmatter`), recursive content resolution
(`Resolve`), path helpers (`resolvePath`, models of `path/filepath`
functions), chain validation (`ValidateChain`) and the diagnostic
dependency-chain traversal (`GetDependencyChain`).

The filesystem is modelled as a partial map from absolute path strings to
file contents; `os.Open` on a missing path yields the wrapped not-found
message the Go code produces.  The shared mutable `visited` map with its
`defer delete` is modelled by threading the visited list through every
call and removing the current path on return.  Go's unbounded recursion
is modelled with a fuel parameter; exhausted fuel returns a distinguished
error that no actual Go execution produces, and the lemmas show results
are stable once the fuel suffices.
-/

/-! ## Characters, whitespace and line scanning -/

/-- The ASCII whitespace class of Go's `unicode.IsSpace` (the Unicode
cases, irrelevant for the inputs considered here, are omitted). -/
def goIsSpace (c : Char) : Bool :=
  c = ' ' || c = '\t' || c = '\n' || c = (Char.ofNat 11) || c = (Char.ofNat 12) || c = '\r'

/-- Drop leading whitespace characters, as `strings.TrimSpace` does on the
left end. -/
def stripL (l : List Char) : List Char := l.dropWhile goIsSpace

/-- Drop trailing whitespace characters, as `strings.TrimSpace` does on the
right end. -/
def stripR (l : List Char) : List Char := (l.reverse.dropWhile goIsSpace).reverse

/-- Character-list core of `strings.TrimSpace`. -/
def trimChars (l : List Char) : List Char := stripR (stripL l)

/-- Model of Go's `strings.TrimSpace`. -/
def trimSpace (s : String) : String := String.mk (trimChars s.data)

/-- Prefix test on character lists. -/
def charsPfx : List Char → List Char → Bool
  | [], _ => true
  | _ :: _, [] => false
  | a :: as, b :: bs => a = b && charsPfx as bs

/-- Infix test on character lists. -/
def charsInfix (pat : List Char) : List Char → Bool
  | [] => charsPfx pat []
  | b :: bs => charsPfx pat (b :: bs) || charsInfix pat bs

/-- Substring test (used to talk about which error-kind markers occur in a
message). -/
def strContains (s pat : String) : Bool := charsInfix pat.data s.data

/-- One line delivered by `bufio.Scanner` with `ScanLines`: a trailing
carriage return is dropped. -/
def dropCR (l : List Char) : List Char :=
  match l.reverse with
  | '\r' :: rest => rest.reverse
  | _ => l

/-- Model of scanning `bufio.ScanLines` tokens out of a character list:
one token per newline-terminated line, and a final token for a non-empty
tail without a terminating newline. -/
def scanLines : List Char → List Char → List String
  | [], acc => [String.mk (dropCR acc.reverse)]
  | '\n' :: cs, acc =>
    String.mk (dropCR acc.reverse) ::
      (match cs with
       | [] => []
       | c :: cs' => scanLines (c :: cs') [])
  | c :: cs, acc => scanLines cs (c :: acc)

/-- The sequence of lines `bufio.Scanner` yields for a file's text. -/
def goLines (s : String) : List String :=
  match s.data with
  | [] => []
  | c :: cs => scanLines (c :: cs) []

/-! ## Models of `path/filepath` (Unix rules) -/

/-- Model of `filepath.IsAbs` on Unix: the path starts with `/`. -/
def filepathIsAbs (p : String) : Bool :=
  match p.data with
  | '/' :: _ => true
  | _ => false

/-- One step of `filepath.Clean`'s element processing: skip empty and `.`
elements, let `..` pop a poppable element (or vanish at the root of a
rooted path), push everything else. The stack is kept reversed. -/
def cleanPush (rooted : Bool) (stack : List String) (c : String) : List String :=
  if c = "" || c = "." then stack
  else if c = ".." then
    match stack with
    | [] => if rooted then [] else [".."]
    | s :: rest => if s = ".." then c :: s :: rest else rest
  else c :: stack

/-- Split a character list at every occurrence of a separator character. -/
def splitOnChar (sep : Char) : List Char → List (List Char)
  | [] => [[]]
  | c :: cs =>
    let r := splitOnChar sep cs
    if c = sep then [] :: r
    else
      match r with
      | [] => [[c]]
      | h :: t => (c :: h) :: t

/-- The `/`-separated components of a path string. -/
def pathComponents (p : String) : List String :=
  (splitOnChar '/' p.data).map (fun cs => String.mk cs)

/-- Model of `filepath.Clean` on Unix. -/
def filepathClean (p : String) : String :=
  let rooted := filepathIsAbs p
  let stack := (pathComponents p).foldl (cleanPush rooted) []
  let body := String.intercalate ("/") stack.reverse
  if rooted then (if body = "" then "/" else "/" ++ body)
  else (if body = "" then "." else body)

/-- Model of the two-argument `filepath.Join` on Unix: skip a leading empty
element, join with `/`, and `Clean` the result. -/
def filepathJoin (a b : String) : String :=
  if a = "" then (if b = "" then "" else filepathClean b)
  else filepathClean (a ++ ("/") ++ b)

/-- Model of `filepath.Dir` on Unix: everything before the final `/`,
cleaned; `.` when the path has no `/`. -/
def filepathDir (p : String) : String :=
  let comps := pathComponents p
  if comps.length ≤ 1 then "."
  else filepathClean (String.intercalate ("/") comps.dropLast ++ ("/"))

/-- Model of `filepath.Abs`: an absolute path is cleaned, a relative one is
joined onto the working directory. Go's `Abs` can only fail when the
working directory is unavailable, which the model excludes, so the
path-resolution error branch of the Go code is unreachable here. -/
def filepathAbs (cwd p : String) : String :=
  if filepathIsAbs p then filepathClean p else filepathJoin cwd p

/-! ## Frontmatter -/

/-- The `Frontmatter` struct of the resolver: the `extends` scalar and the
`includes` sequence of the YAML header. -/
structure Frontmatter where
  Extends : String
  Includes : List String
deriving DecidableEq, Repr

/-- Split a trimmed YAML line at its first colon. -/
def splitFirstColon : List Char → Option (List Char × List Char)
  | [] => none
  | ':' :: cs => some ([], cs)
  | c :: cs => (splitFirstColon cs).map (fun pr => (c :: pr.1, pr.2))

/-- Model of `gopkg.in/yaml.v3`'s `Unmarshal` into `Frontmatter`, for the
block-style documents the tool's headers use: `extends: value` scalar
entries, an `includes:` key followed by `- item` sequence entries, blank
lines and `#` comments.  Other mapping keys with scalar values are ignored
(yaml leaves unknown keys undecoded); a line that is no mapping entry at
all — such as plain prose — fails, as yaml fails to unmarshal a non-mapping
document into a struct.  Flow-style or nested YAML is out of the modelled
fragment and also fails. -/
def yamlFMAux : List String → Frontmatter → Bool → Except String Frontmatter
  | [], fm, _ => Except.ok fm
  | line :: rest, fm, inInc =>
    let t := trimSpace line
    if t = "" then yamlFMAux rest fm inInc
    else if charsPfx ("#").data t.data then yamlFMAux rest fm inInc
    else if charsPfx ("- ").data t.data then
      (if inInc then
        yamlFMAux rest
          { fm with Includes := fm.Includes ++ [trimSpace (String.mk (t.data.drop 2))] } true
      else Except.error ("yaml: unexpected sequence entry"))
    else
      match splitFirstColon t.data with
      | some (k, v) =>
        let key := String.mk k
        let val := trimSpace (String.mk v)
        if key = "extends" then yamlFMAux rest { fm with Extends := val } false
        else if key = "includes" then
          (if val = "" then yamlFMAux rest fm true
           else Except.error ("yaml: unsupported flow sequence"))
        else yamlFMAux rest fm false
      | none => Except.error ("yaml: cannot unmarshal document into Frontmatter")

/-- Entry point of the modelled YAML decoding. -/
def yamlUnmarshalFM (lines : List String) : Except String Frontmatter :=
  yamlFMAux lines { Extends := "", Includes := [] } false

/-- The `---` frontmatter delimiter. -/
def frontmatterSeparator : String := "---"

/-- The scanning loop of `ParseFrontmatter` after its first line: while in
the frontmatter block, a delimiter line closes the block and every other
line is metadata; outside the block every line is content. -/
def pfLoop : Bool → List String → List String → List String → List String × List String
  | _, fmAcc, contentAcc, [] => (fmAcc, contentAcc)
  | true, fmAcc, contentAcc, line :: rest =>
    if trimSpace line = frontmatterSeparator then pfLoop false fmAcc contentAcc rest
    else pfLoop true (fmAcc ++ [line]) contentAcc rest
  | false, fmAcc, contentAcc, line :: rest =>
    pfLoop false fmAcc (contentAcc ++ [line]) rest

/-- Split a file's lines into frontmatter lines and content lines: the
block is entered only when the very first line is the delimiter. -/
def parseFrontmatterLines : List String → List String × List String
  | [] => ([], [])
  | first :: rest =>
    if trimSpace first = frontmatterSeparator then pfLoop true [] [] rest
    else pfLoop false [] [first] rest

/-- Model of the resolver's `ParseFrontmatter`: scan lines, split off the
delimiter-bounded header, decode it as YAML when non-empty, and join the
remaining lines into the content string. -/
def ParseFrontmatter (text : String) : Except String (Frontmatter × String) :=
  let lines := goLines text
  let (fmLines, contentLines) := parseFrontmatterLines lines
  let content := String.intercalate ("\n") contentLines
  if fmLines.isEmpty then Except.ok ({ Extends := "", Includes := [] }, content)
  else
    match yamlUnmarshalFM fmLines with
    | Except.error e => Except.error ("error parsing frontmatter: " ++ e)
    | Except.ok fm => Except.ok (fm, content)

/-! ## The resolver -/

/-- The filesystem: which absolute (or relative-to-`cwd`) paths hold which
text.  `none` models a path `os.Open` cannot open. -/
abbrev FS := String → Option String

/-- Model of the resolver's `resolvePath`: an absolute reference is used
as-is, a relative one is joined onto the base directory. -/
def resolvePath (path basePath : String) : String :=
  if filepathIsAbs path then path else filepathJoin basePath path

/-- The message of the wrapped `os.Open` not-found failure. -/
def openErr (p : String) : String :=
  "error opening file " ++ p ++ ": open " ++ p ++ ": no such file or directory"

/-- The error returned when the fuel of the embedding runs out; no actual
execution of the (unboundedly recursive) Go code produces it. -/
def fuelErr : String := "resolver recursion limit reached"

/-- Append one resolved segment to the output builder: a non-empty segment
is written followed by one blank line, an empty one is skipped. This is
the `if c != "" { result.WriteString(c); result.WriteString("\n\n") }`
step of `Resolve`. -/
def segAppend (acc t : String) : String :=
  if t ≠ "" then acc ++ t ++ "\n\n" else acc

/-- Pending work of the resolution interpreter: resolve one file, or fold
the include list of a file (its directory, remaining include paths, and
the output accumulated so far). -/
inductive ResolveJob where
  | file (path : String)
  | incs (dirPath : String) (paths : List String) (acc : String)

/-- The `extends` step of one `Resolve` call: when a parent is declared,
resolve its path against the current file's directory, recurse, wrap a
failure, and turn a success into the initial output accumulator (the
parent text followed by a blank line when non-empty). -/
def extStep (recur : ResolveJob → List String → Except String String × List String)
    (fm : Frontmatter) (absPath : String) (v : List String) :
    Except String String × List String :=
  if fm.Extends ≠ "" then
    match recur (ResolveJob.file (resolvePath fm.Extends (filepathDir absPath))) (absPath :: v) with
    | (Except.error e, v') =>
      (Except.error ("error resolving extends file " ++
        resolvePath fm.Extends (filepathDir absPath) ++ ": " ++ e), v')
    | (Except.ok t, v') => (Except.ok (segAppend "" t), v')
  else (Except.ok "", absPath :: v)

/-- The body of one `Resolve` call after the cycle check has passed and
the normalized path has been marked visited: open and parse the file,
resolve the `extends` parent, then the includes, append the own content
and trim.  `recur` is the recursive interpreter. -/
def fileStepBody (fs : FS) (cwd : String)
    (recur : ResolveJob → List String → Except String String × List String)
    (absPath : String) (v : List String) : Except String String × List String :=
  match fs absPath with
  | none => (Except.error (openErr absPath), absPath :: v)
  | some text =>
    match ParseFrontmatter text with
    | Except.error e =>
      (Except.error ("error parsing file " ++ absPath ++ ": " ++ e), absPath :: v)
    | Except.ok (fm, content) =>
      match extStep recur fm absPath v with
      | (Except.error e, v') => (Except.error e, v')
      | (Except.ok acc, v') =>
        match recur (ResolveJob.incs (filepathDir absPath) fm.Includes acc) v' with
        | (Except.error e, v'') => (Except.error e, v'')
        | (Except.ok acc2, v'') =>
          (Except.ok (trimSpace (if content ≠ "" then acc2 ++ content else acc2)), v'')

/-- One unfolding of `Resolve` on a file, parameterized by the recursive
interpreter `recur`.  Mirrors the body of the Go `Resolve`: normalize,
check the visited set before any file access, mark visited, run the body,
and remove the path from the visited set on every exit path (the
`defer delete`). -/
def fileStep (fs : FS) (cwd : String)
    (recur : ResolveJob → List String → Except String String × List String)
    (p : String) (v : List String) : Except String String × List String :=
  let absPath := filepathAbs cwd p
  if v.contains absPath then
    (Except.error ("circular dependency detected: " ++ absPath), v)
  else
    let inner := fileStepBody fs cwd recur absPath v
    (inner.1, inner.2.erase absPath)

/-- The include loop of `Resolve`, parameterized by the recursive
interpreter: resolve each include in declared order, wrap and propagate
the first failure, append each non-empty result followed by a blank
line. -/
def incsStep (recur : ResolveJob → List String → Except String String × List String)
    (d : String) (ips : List String) (acc : String) (v : List String) :
    Except String String × List String :=
  match ips with
  | [] => (Except.ok acc, v)
  | ip :: rest =>
    match recur (ResolveJob.file (resolvePath ip d)) v with
    | (Except.error e, v') =>
      (Except.error ("error resolving include file " ++ resolvePath ip d ++ ": " ++ e), v')
    | (Except.ok t, v') => recur (ResolveJob.incs d rest (segAppend acc t)) v'

/-- Fuel-indexed interpreter for resolution jobs. -/
def resolveRun (fs : FS) (cwd : String) : Nat → ResolveJob → List String →
    Except String String × List String
  | 0, _, v => (Except.error fuelErr, v)
  | fuel + 1, j, v =>
    match j with
    | ResolveJob.file p => fileStep fs cwd (resolveRun fs cwd fuel) p v
    | ResolveJob.incs d ips acc => incsStep (resolveRun fs cwd fuel) d ips acc v

/-- Model of the resolver's `Resolve`: run the file job, returning the
resolved text (or error) together with the final visited set. -/
def Resolve (fs : FS) (cwd : String) (fuel : Nat) (filePath : String)
    (visited : List String) : Except String String × List String :=
  resolveRun fs cwd fuel (ResolveJob.file filePath) visited

/-- Model of the resolver's `ValidateChain`: run `Resolve` from a fresh
(nil) visited set and keep only the error. -/
def ValidateChain (fs : FS) (cwd : String) (fuel : Nat) (filePath : String) :
    Option String :=
  match (Resolve fs cwd fuel filePath []).1 with
  | Except.ok _ => none
  | Except.error e => some e

/-- Pending work of the dependency-chain interpreter. -/
inductive ChainJob where
  | file (path : String)
  | incs (dirPath : String) (paths : List String) (acc : List String)

/-- The `extends` step of one `GetDependencyChain` call: when a parent is
declared, collect its chain recursively and prepend it before the
single-element chain of the current file; errors are propagated
unwrapped. -/
def chainExtStep (recur : ChainJob → List String → Except String (List String) × List String)
    (fm : Frontmatter) (absPath : String) (v : List String) :
    Except String (List String) × List String :=
  if fm.Extends ≠ "" then
    match recur (ChainJob.file (resolvePath fm.Extends (filepathDir absPath))) (absPath :: v) with
    | (Except.error e, v') => (Except.error e, v')
    | (Except.ok ec, v') => (Except.ok (ec ++ [absPath]), v')
  else (Except.ok [absPath], absPath :: v)

/-- The body of one `GetDependencyChain` call after the cycle check has
passed and the normalized path has been marked visited: the chain starts
as `[absPath]`, a resolved parent chain is prepended, include chains are
appended, and recursive errors are propagated unwrapped. -/
def chainFileStepBody (fs : FS) (cwd : String)
    (recur : ChainJob → List String → Except String (List String) × List String)
    (absPath : String) (v : List String) : Except String (List String) × List String :=
  match fs absPath with
  | none => (Except.error (openErr absPath), absPath :: v)
  | some text =>
    match ParseFrontmatter text with
    | Except.error e =>
      (Except.error ("error parsing file " ++ absPath ++ ": " ++ e), absPath :: v)
    | Except.ok (fm, _) =>
      match chainExtStep recur fm absPath v with
      | (Except.error e, v') => (Except.error e, v')
      | (Except.ok ch, v') =>
        recur (ChainJob.incs (filepathDir absPath) fm.Includes ch) v'

/-- One unfolding of `GetDependencyChain` on a file, parameterized by the
recursive interpreter.  Same cycle check and visited management as
`Resolve`'s `fileStep`. -/
def chainFileStep (fs : FS) (cwd : String)
    (recur : ChainJob → List String → Except String (List String) × List String)
    (p : String) (v : List String) : Except String (List String) × List String :=
  let absPath := filepathAbs cwd p
  if v.contains absPath then
    (Except.error ("circular dependency detected: " ++ absPath), v)
  else
    let inner := chainFileStepBody fs cwd recur absPath v
    (inner.1, inner.2.erase absPath)

/-- The include loop of `GetDependencyChain`: collect each include's chain
in declared order, appending it after the chain built so far; errors are
propagated unwrapped. -/
def chainIncsStep (recur : ChainJob → List String → Except String (List String) × List String)
    (d : String) (ips : List String) (acc : List String) (v : List String) :
    Except String (List String) × List String :=
  match ips with
  | [] => (Except.ok acc, v)
  | ip :: rest =>
    match recur (ChainJob.file (resolvePath ip d)) v with
    | (Except.error e, v') => (Except.error e, v')
    | (Except.ok c, v') => recur (ChainJob.incs d rest (acc ++ c)) v'

/-- Fuel-indexed interpreter for dependency-chain jobs. -/
def chainRun (fs : FS) (cwd : String) : Nat → ChainJob → List String →
    Except String (List String) × List String
  | 0, _, v => (Except.error fuelErr, v)
  | fuel + 1, j, v =>
    match j with
    | ChainJob.file p => chainFileStep fs cwd (chainRun fs cwd fuel) p v
    | ChainJob.incs d ips acc => chainIncsStep (chainRun fs cwd fuel) d ips acc v

/-- Model of the resolver's `GetDependencyChain`. -/
def GetDependencyChain (fs : FS) (cwd : String) (fuel : Nat) (filePath : String)
    (visited : List String) : Except String (List String) × List String :=
  chainRun fs cwd fuel (ChainJob.file filePath) visited

/-- Fold of `segAppend` over a list of segments starting from the empty
builder; `Resolve`'s output is this fold over parent and peer texts,
followed by the own body and the final trim. -/
def segcat (ts : List String) : String := ts.foldl segAppend ""

/-! ## Basic lemmas about trimming and strings -/

theorem str_nil_append (s : String) : "" ++ s = s := rfl

theorem str_append_nil (s : String) : s ++ "" = s := by
  cases s with
  | mk data => show String.mk (data ++ []) = String.mk data
               rw [List.append_nil]

theorem dropWhile_dropWhile (p : Char → Bool) (l : List Char) :
    (l.dropWhile p).dropWhile p = l.dropWhile p := by
  induction l with
  | nil => rfl
  | cons c cs ih =>
    by_cases h : p c
    · simp [List.dropWhile_cons, h, ih]
    · simp [List.dropWhile_cons, h]

theorem dropWhile_head_not (p : Char → Bool) (l : List Char) (c : Char)
    (h : (l.dropWhile p).head? = some c) : p c = false := by
  induction l with
  | nil => simp at h
  | cons a as ih =>
    by_cases ha : p a
    · rw [List.dropWhile_cons, if_pos ha] at h
      exact ih h
    · rw [List.dropWhile_cons, if_neg ha] at h
      simp at h
      subst h
      simpa using ha

theorem dropWhile_decomp (p : Char → Bool) (l : List Char) :
    ∃ t, l = t ++ l.dropWhile p := by
  induction l with
  | nil => exact ⟨[], rfl⟩
  | cons a as ih =>
    by_cases ha : p a
    · obtain ⟨t, ht⟩ := ih
      exact ⟨a :: t, by rw [List.dropWhile_cons, if_pos ha]; simpa using ht⟩
    · exact ⟨[], by rw [List.dropWhile_cons, if_neg ha]; rfl⟩

theorem stripR_decomp (l : List Char) : ∃ t, l = stripR l ++ t := by
  obtain ⟨t, ht⟩ := dropWhile_decomp goIsSpace l.reverse
  refine ⟨t.reverse, ?_⟩
  have := congrArg List.reverse ht
  rw [List.reverse_reverse, List.reverse_append] at this
  simpa [stripR] using this

theorem stripL_of_stripR (l : List Char) (hl : stripL l = l) :
    stripL (stripR l) = stripR l := by
  obtain ⟨t, ht⟩ := stripR_decomp l
  cases hsr : stripR l with
  | nil => rfl
  | cons c rest =>
    have hc : goIsSpace c = false := by
      apply dropWhile_head_not goIsSpace l
      rw [show l.dropWhile goIsSpace = l from hl, ht, hsr]
      rfl
    simp [stripL, List.dropWhile_cons, hc]

theorem stripR_stripR (l : List Char) : stripR (stripR l) = stripR l := by
  unfold stripR
  rw [List.reverse_reverse, dropWhile_dropWhile]

theorem trimChars_idem (l : List Char) : trimChars (trimChars l) = trimChars l := by
  unfold trimChars
  rw [show stripL l = (stripL l) from rfl]
  have h1 : stripL (stripL l) = stripL l := dropWhile_dropWhile goIsSpace l
  rw [stripL_of_stripR (stripL l) h1, stripR_stripR]

theorem trimSpace_idem (s : String) : trimSpace (trimSpace s) = trimSpace s := by
  unfold trimSpace
  exact congrArg String.mk (trimChars_idem s.data)

/-! ## Unfolding equations for the interpreters -/

theorem resolveRun_zero (fs : FS) (cwd : String) (j : ResolveJob) (v : List String) :
    resolveRun fs cwd 0 j v = (Except.error fuelErr, v) := rfl

theorem resolveRun_file (fs : FS) (cwd : String) (fuel : Nat) (p : String) (v : List String) :
    resolveRun fs cwd (fuel + 1) (ResolveJob.file p) v =
      fileStep fs cwd (resolveRun fs cwd fuel) p v := rfl

theorem resolveRun_incs (fs : FS) (cwd : String) (fuel : Nat) (d : String)
    (ips : List String) (acc : String) (v : List String) :
    resolveRun fs cwd (fuel + 1) (ResolveJob.incs d ips acc) v =
      incsStep (resolveRun fs cwd fuel) d ips acc v := rfl

theorem chainRun_zero (fs : FS) (cwd : String) (j : ChainJob) (v : List String) :
    chainRun fs cwd 0 j v = (Except.error fuelErr, v) := rfl

theorem chainRun_file (fs : FS) (cwd : String) (fuel : Nat) (p : String) (v : List String) :
    chainRun fs cwd (fuel + 1) (ChainJob.file p) v =
      chainFileStep fs cwd (chainRun fs cwd fuel) p v := rfl

theorem chainRun_incs (fs : FS) (cwd : String) (fuel : Nat) (d : String)
    (ips : List String) (acc : List String) (v : List String) :
    chainRun fs cwd (fuel + 1) (ChainJob.incs d ips acc) v =
      chainIncsStep (chainRun fs cwd fuel) d ips acc v := rfl

/-! ## Case equations for the step functions -/

theorem fileStep_eq (fs : FS) (cwd : String)
    (recur : ResolveJob → List String → Except String String × List String)
    (p : String) (v : List String) :
    fileStep fs cwd recur p v =
      if v.contains (filepathAbs cwd p) then
        (Except.error ("circular dependency detected: " ++ filepathAbs cwd p), v)
      else
        ((fileStepBody fs cwd recur (filepathAbs cwd p) v).1,
         (fileStepBody fs cwd recur (filepathAbs cwd p) v).2.erase (filepathAbs cwd p)) := rfl

theorem fileStepBody_none (fs : FS) (cwd : String)
    (recur : ResolveJob → List String → Except String String × List String)
    (ap : String) (v : List String) (hfs : fs ap = none) :
    fileStepBody fs cwd recur ap v = (Except.error (openErr ap), ap :: v) := by
  unfold fileStepBody
  rw [hfs]

theorem fileStepBody_parseErr (fs : FS) (cwd : String)
    (recur : ResolveJob → List String → Except String String × List String)
    (ap : String) (v : List String) (text e : String)
    (hfs : fs ap = some text) (hp : ParseFrontmatter text = Except.error e) :
    fileStepBody fs cwd recur ap v =
      (Except.error ("error parsing file " ++ ap ++ ": " ++ e), ap :: v) := by
  unfold fileStepBody
  simp only [hfs, hp]

theorem fileStepBody_ok (fs : FS) (cwd : String)
    (recur : ResolveJob → List String → Except String String × List String)
    (ap : String) (v : List String) (text : String) (fm : Frontmatter) (content : String)
    (hfs : fs ap = some text) (hp : ParseFrontmatter text = Except.ok (fm, content)) :
    fileStepBody fs cwd recur ap v =
      match extStep recur fm ap v with
      | (Except.error e, v') => (Except.error e, v')
      | (Except.ok acc, v') =>
        match recur (ResolveJob.incs (filepathDir ap) fm.Includes acc) v' with
        | (Except.error e, v'') => (Except.error e, v'')
        | (Except.ok acc2, v'') =>
          (Except.ok (trimSpace (if content ≠ "" then acc2 ++ content else acc2)), v'') := by
  unfold fileStepBody
  simp only [hfs, hp]

theorem extStep_ext
    (recur : ResolveJob → List String → Except String String × List String)
    (fm : Frontmatter) (ap : String) (v : List String) (hx : fm.Extends ≠ "") :
    extStep recur fm ap v =
      match recur (ResolveJob.file (resolvePath fm.Extends (filepathDir ap))) (ap :: v) with
      | (Except.error e, v') =>
        (Except.error ("error resolving extends file " ++
          resolvePath fm.Extends (filepathDir ap) ++ ": " ++ e), v')
      | (Except.ok t, v') => (Except.ok (segAppend "" t), v') := by
  unfold extStep
  rw [if_pos hx]

theorem extStep_noext
    (recur : ResolveJob → List String → Except String String × List String)
    (fm : Frontmatter) (ap : String) (v : List String) (hx : fm.Extends = "") :
    extStep recur fm ap v = (Except.ok "", ap :: v) := by
  unfold extStep
  rw [if_neg (not_not_intro hx)]

theorem incsStep_nil
    (recur : ResolveJob → List String → Except String String × List String)
    (d : String) (acc : String) (v : List String) :
    incsStep recur d [] acc v = (Except.ok acc, v) := rfl

theorem incsStep_cons
    (recur : ResolveJob → List String → Except String String × List String)
    (d ip : String) (rest : List String) (acc : String) (v : List String) :
    incsStep recur d (ip :: rest) acc v =
      match recur (ResolveJob.file (resolvePath ip d)) v with
      | (Except.error e, v') =>
        (Except.error ("error resolving include file " ++ resolvePath ip d ++ ": " ++ e), v')
      | (Except.ok t, v') => recur (ResolveJob.incs d rest (segAppend acc t)) v' := rfl

theorem chainFileStep_eq (fs : FS) (cwd : String)
    (recur : ChainJob → List String → Except String (List String) × List String)
    (p : String) (v : List String) :
    chainFileStep fs cwd recur p v =
      if v.contains (filepathAbs cwd p) then
        (Except.error ("circular dependency detected: " ++ filepathAbs cwd p), v)
      else
        ((chainFileStepBody fs cwd recur (filepathAbs cwd p) v).1,
         (chainFileStepBody fs cwd recur (filepathAbs cwd p) v).2.erase (filepathAbs cwd p)) := rfl

theorem chainFileStepBody_none (fs : FS) (cwd : String)
    (recur : ChainJob → List String → Except String (List String) × List String)
    (ap : String) (v : List String) (hfs : fs ap = none) :
    chainFileStepBody fs cwd recur ap v = (Except.error (openErr ap), ap :: v) := by
  unfold chainFileStepBody
  rw [hfs]

theorem chainFileStepBody_parseErr (fs : FS) (cwd : String)
    (recur : ChainJob → List String → Except String (List String) × List String)
    (ap : String) (v : List String) (text e : String)
    (hfs : fs ap = some text) (hp : ParseFrontmatter text = Except.error e) :
    chainFileStepBody fs cwd recur ap v =
      (Except.error ("error parsing file " ++ ap ++ ": " ++ e), ap :: v) := by
  unfold chainFileStepBody
  simp only [hfs, hp]

theorem chainFileStepBody_ok (fs : FS) (cwd : String)
    (recur : ChainJob → List String → Except String (List String) × List String)
    (ap : String) (v : List String) (text : String) (fm : Frontmatter) (content : String)
    (hfs : fs ap = some text) (hp : ParseFrontmatter text = Except.ok (fm, content)) :
    chainFileStepBody fs cwd recur ap v =
      match chainExtStep recur fm ap v with
      | (Except.error e, v') => (Except.error e, v')
      | (Except.ok ch, v') =>
        recur (ChainJob.incs (filepathDir ap) fm.Includes ch) v' := by
  unfold chainFileStepBody
  simp only [hfs, hp]

theorem chainExtStep_ext
    (recur : ChainJob → List String → Except String (List String) × List String)
    (fm : Frontmatter) (ap : String) (v : List String) (hx : fm.Extends ≠ "") :
    chainExtStep recur fm ap v =
      match recur (ChainJob.file (resolvePath fm.Extends (filepathDir ap))) (ap :: v) with
      | (Except.error e, v') => (Except.error e, v')
      | (Except.ok ec, v') => (Except.ok (ec ++ [ap]), v') := by
  unfold chainExtStep
  rw [if_pos hx]

theorem chainExtStep_noext
    (recur : ChainJob → List String → Except String (List String) × List String)
    (fm : Frontmatter) (ap : String) (v : List String) (hx : fm.Extends = "") :
    chainExtStep recur fm ap v = (Except.ok [ap], ap :: v) := by
  unfold chainExtStep
  rw [if_neg (not_not_intro hx)]

theorem chainIncsStep_nil
    (recur : ChainJob → List String → Except String (List String) × List String)
    (d : String) (acc : List String) (v : List String) :
    chainIncsStep recur d [] acc v = (Except.ok acc, v) := rfl

theorem chainIncsStep_cons
    (recur : ChainJob → List String → Except String (List String) × List String)
    (d ip : String) (rest : List String) (acc : List String) (v : List String) :
    chainIncsStep recur d (ip :: rest) acc v =
      match recur (ChainJob.file (resolvePath ip d)) v with
      | (Except.error e, v') => (Except.error e, v')
      | (Except.ok c, v') => recur (ChainJob.incs d rest (acc ++ c)) v' := rfl

/-! ## The visited set is restored on every exit path -/

theorem extStep_visited
    (recur : ResolveJob → List String → Except String String × List String)
    (fm : Frontmatter) (ap : String) (v : List String)
    (hrec : ∀ j w, (recur j w).2 = w) :
    (extStep recur fm ap v).2 = ap :: v := by
  by_cases hx : fm.Extends = ""
  · rw [extStep_noext recur fm ap v hx]
  · rw [extStep_ext recur fm ap v hx]
    cases hr : recur (ResolveJob.file (resolvePath fm.Extends (filepathDir ap))) (ap :: v) with
    | mk r1 v1 =>
      have hv1 : v1 = ap :: v := by
        have h := hrec (ResolveJob.file (resolvePath fm.Extends (filepathDir ap))) (ap :: v)
        rw [hr] at h
        exact h
      cases r1 <;> simpa using hv1

theorem fileStepBody_visited (fs : FS) (cwd : String)
    (recur : ResolveJob → List String → Except String String × List String)
    (ap : String) (v : List String)
    (hrec : ∀ j w, (recur j w).2 = w) :
    (fileStepBody fs cwd recur ap v).2 = ap :: v := by
  cases hfs : fs ap with
  | none => rw [fileStepBody_none fs cwd recur ap v hfs]
  | some text =>
    cases hp : ParseFrontmatter text with
    | error e => rw [fileStepBody_parseErr fs cwd recur ap v text e hfs hp]
    | ok pr =>
      obtain ⟨fm, content⟩ := pr
      rw [fileStepBody_ok fs cwd recur ap v text fm content hfs hp]
      cases hx : extStep recur fm ap v with
      | mk r1 v1 =>
        have hv1 : v1 = ap :: v := by
          have h := extStep_visited recur fm ap v hrec
          rw [hx] at h
          exact h
        cases r1 with
        | error e => simpa using hv1
        | ok acc =>
          subst hv1
          cases hr2 : recur (ResolveJob.incs (filepathDir ap) fm.Includes acc) (ap :: v) with
          | mk r2 v2 =>
            have hv2 : v2 = ap :: v := by
              have h := hrec (ResolveJob.incs (filepathDir ap) fm.Includes acc) (ap :: v)
              rw [hr2] at h
              exact h
            simp only [hr2]
            cases r2 <;> simpa using hv2

theorem resolveRun_visited (fs : FS) (cwd : String) :
    ∀ (fuel : Nat) (j : ResolveJob) (v : List String),
    (resolveRun fs cwd fuel j v).2 = v := by
  intro fuel
  induction fuel with
  | zero => intro j v; rfl
  | succ f ih =>
    intro j v
    cases j with
    | file p =>
      rw [resolveRun_file, fileStep_eq]
      by_cases h : v.contains (filepathAbs cwd p) = true
      · rw [if_pos h]
      · rw [if_neg h]
        have hb := fileStepBody_visited fs cwd (resolveRun fs cwd f) (filepathAbs cwd p) v
          (fun j w => ih j w)
        show (fileStepBody fs cwd (resolveRun fs cwd f) (filepathAbs cwd p) v).2.erase
          (filepathAbs cwd p) = v
        rw [hb, List.erase_cons_head]
    | incs d ips acc =>
      rw [resolveRun_incs]
      cases ips with
      | nil => rw [incsStep_nil]
      | cons ip rest =>
        rw [incsStep_cons]
        cases hr : resolveRun fs cwd f (ResolveJob.file (resolvePath ip d)) v with
        | mk r1 v1 =>
          have hv1 : v1 = v := by
            have h := ih (ResolveJob.file (resolvePath ip d)) v
            rw [hr] at h
            exact h
          cases r1 with
          | error e => simpa using hv1
          | ok t =>
            have h2 := ih (ResolveJob.incs d rest (segAppend acc t)) v1
            simpa [h2] using hv1

theorem Resolve_visited (fs : FS) (cwd : String) (fuel : Nat) (p : String) (v : List String) :
    (Resolve fs cwd fuel p v).2 = v :=
  resolveRun_visited fs cwd fuel (ResolveJob.file p) v

theorem chainExtStep_visited
    (recur : ChainJob → List String → Except String (List String) × List String)
    (fm : Frontmatter) (ap : String) (v : List String)
    (hrec : ∀ j w, (recur j w).2 = w) :
    (chainExtStep recur fm ap v).2 = ap :: v := by
  by_cases hx : fm.Extends = ""
  · rw [chainExtStep_noext recur fm ap v hx]
  · rw [chainExtStep_ext recur fm ap v hx]
    cases hr : recur (ChainJob.file (resolvePath fm.Extends (filepathDir ap))) (ap :: v) with
    | mk r1 v1 =>
      have hv1 : v1 = ap :: v := by
        have h := hrec (ChainJob.file (resolvePath fm.Extends (filepathDir ap))) (ap :: v)
        rw [hr] at h
        exact h
      cases r1 <;> simpa using hv1

theorem chainFileStepBody_visited (fs : FS) (cwd : String)
    (recur : ChainJob → List String → Except String (List String) × List String)
    (ap : String) (v : List String)
    (hrec : ∀ j w, (recur j w).2 = w) :
    (chainFileStepBody fs cwd recur ap v).2 = ap :: v := by
  cases hfs : fs ap with
  | none => rw [chainFileStepBody_none fs cwd recur ap v hfs]
  | some text =>
    cases hp : ParseFrontmatter text with
    | error e => rw [chainFileStepBody_parseErr fs cwd recur ap v text e hfs hp]
    | ok pr =>
      obtain ⟨fm, content⟩ := pr
      rw [chainFileStepBody_ok fs cwd recur ap v text fm content hfs hp]
      cases hx : chainExtStep recur fm ap v with
      | mk r1 v1 =>
        have hv1 : v1 = ap :: v := by
          have h := chainExtStep_visited recur fm ap v hrec
          rw [hx] at h
          exact h
        cases r1 with
        | error e => simpa using hv1
        | ok ch =>
          subst hv1
          exact hrec (ChainJob.incs (filepathDir ap) fm.Includes ch) (ap :: v)

theorem chainRun_visited (fs : FS) (cwd : String) :
    ∀ (fuel : Nat) (j : ChainJob) (v : List String),
    (chainRun fs cwd fuel j v).2 = v := by
  intro fuel
  induction fuel with
  | zero => intro j v; rfl
  | succ f ih =>
    intro j v
    cases j with
    | file p =>
      rw [chainRun_file, chainFileStep_eq]
      by_cases h : v.contains (filepathAbs cwd p) = true
      · rw [if_pos h]
      · rw [if_neg h]
        have hb := chainFileStepBody_visited fs cwd (chainRun fs cwd f) (filepathAbs cwd p) v
          (fun j w => ih j w)
        show (chainFileStepBody fs cwd (chainRun fs cwd f) (filepathAbs cwd p) v).2.erase
          (filepathAbs cwd p) = v
        rw [hb, List.erase_cons_head]
    | incs d ips acc =>
      rw [chainRun_incs]
      cases ips with
      | nil => rw [chainIncsStep_nil]
      | cons ip rest =>
        rw [chainIncsStep_cons]
        cases hr : chainRun fs cwd f (ChainJob.file (resolvePath ip d)) v with
        | mk r1 v1 =>
          have hv1 : v1 = v := by
            have h := ih (ChainJob.file (resolvePath ip d)) v
            rw [hr] at h
            exact h
          cases r1 with
          | error e => simpa using hv1
          | ok c =>
            have h2 := ih (ChainJob.incs d rest (acc ++ c)) v1
            simpa [h2] using hv1

theorem GetDependencyChain_visited (fs : FS) (cwd : String) (fuel : Nat) (p : String)
    (v : List String) : (GetDependencyChain fs cwd fuel p v).2 = v :=
  chainRun_visited fs cwd fuel (ChainJob.file p) v

/-! ## Successful runs are stable under additional fuel -/

theorem extStep_mono
    (r1 r2 : ResolveJob → List String → Except String String × List String)
    (hmono : ∀ j w t, (r1 j w).1 = Except.ok t → r2 j w = r1 j w)
    (fm : Frontmatter) (ap : String) (v : List String) (acc : String)
    (h : (extStep r1 fm ap v).1 = Except.ok acc) :
    extStep r2 fm ap v = extStep r1 fm ap v := by
  by_cases hxt : fm.Extends = ""
  · rw [extStep_noext r2 fm ap v hxt, extStep_noext r1 fm ap v hxt]
  · rw [extStep_ext r2 fm ap v hxt, extStep_ext r1 fm ap v hxt]
    rw [extStep_ext r1 fm ap v hxt] at h
    cases hr : r1 (ResolveJob.file (resolvePath fm.Extends (filepathDir ap))) (ap :: v) with
    | mk re ve =>
      cases re with
      | error e => simp [hr] at h
      | ok te =>
        have h2 := hmono (ResolveJob.file (resolvePath fm.Extends (filepathDir ap))) (ap :: v) te
          (by rw [hr])
        rw [h2, hr]

theorem fileStepBody_mono (fs : FS) (cwd : String)
    (r1 r2 : ResolveJob → List String → Except String String × List String)
    (hmono : ∀ j w t, (r1 j w).1 = Except.ok t → r2 j w = r1 j w)
    (ap : String) (v : List String) (t : String)
    (h : (fileStepBody fs cwd r1 ap v).1 = Except.ok t) :
    fileStepBody fs cwd r2 ap v = fileStepBody fs cwd r1 ap v := by
  cases hfs : fs ap with
  | none => rw [fileStepBody_none fs cwd r2 ap v hfs, fileStepBody_none fs cwd r1 ap v hfs]
  | some text =>
    cases hp : ParseFrontmatter text with
    | error e =>
      rw [fileStepBody_parseErr fs cwd r2 ap v text e hfs hp,
        fileStepBody_parseErr fs cwd r1 ap v text e hfs hp]
    | ok pr =>
      obtain ⟨fm, content⟩ := pr
      rw [fileStepBody_ok fs cwd r2 ap v text fm content hfs hp,
        fileStepBody_ok fs cwd r1 ap v text fm content hfs hp]
      rw [fileStepBody_ok fs cwd r1 ap v text fm content hfs hp] at h
      cases hx : extStep r1 fm ap v with
      | mk re ve =>
        cases re with
        | error e => simp [hx] at h
        | ok acc =>
          rw [extStep_mono r1 r2 hmono fm ap v acc (by rw [hx]), hx]
          simp only [hx] at h
          cases hr : r1 (ResolveJob.incs (filepathDir ap) fm.Includes acc) ve with
          | mk r3 v3 =>
            cases r3 with
            | error e => simp [hr] at h
            | ok acc2 =>
              simp only [hr]
              rw [hmono (ResolveJob.incs (filepathDir ap) fm.Includes acc) ve acc2 (by rw [hr]),
                hr]

theorem incsStep_mono
    (r1 r2 : ResolveJob → List String → Except String String × List String)
    (hmono : ∀ j w t, (r1 j w).1 = Except.ok t → r2 j w = r1 j w)
    (d : String) (ips : List String) (acc : String) (v : List String) (t : String)
    (h : (incsStep r1 d ips acc v).1 = Except.ok t) :
    incsStep r2 d ips acc v = incsStep r1 d ips acc v := by
  cases ips with
  | nil => rfl
  | cons ip rest =>
    rw [incsStep_cons r2 d ip rest acc v, incsStep_cons r1 d ip rest acc v]
    rw [incsStep_cons r1 d ip rest acc v] at h
    cases hr : r1 (ResolveJob.file (resolvePath ip d)) v with
    | mk re ve =>
      cases re with
      | error e => simp [hr] at h
      | ok tt =>
        rw [hmono (ResolveJob.file (resolvePath ip d)) v tt (by rw [hr]), hr]
        simp only [hr] at h
        exact hmono (ResolveJob.incs d rest (segAppend acc tt)) ve t h

theorem fileStep_mono (fs : FS) (cwd : String)
    (r1 r2 : ResolveJob → List String → Except String String × List String)
    (hmono : ∀ j w t, (r1 j w).1 = Except.ok t → r2 j w = r1 j w)
    (p : String) (v : List String) (t : String)
    (h : (fileStep fs cwd r1 p v).1 = Except.ok t) :
    fileStep fs cwd r2 p v = fileStep fs cwd r1 p v := by
  rw [fileStep_eq fs cwd r2 p v, fileStep_eq fs cwd r1 p v]
  rw [fileStep_eq fs cwd r1 p v] at h
  by_cases hc : v.contains (filepathAbs cwd p) = true
  · rw [if_pos hc, if_pos hc]
  · rw [if_neg hc] at h
    rw [if_neg hc, if_neg hc]
    have h' : (fileStepBody fs cwd r1 (filepathAbs cwd p) v).1 = Except.ok t := by
      simpa using h
    rw [fileStepBody_mono fs cwd r1 r2 hmono (filepathAbs cwd p) v t h']

theorem resolveRun_mono_succ (fs : FS) (cwd : String) :
    ∀ (f : Nat) (j : ResolveJob) (v : List String) (t : String),
    (resolveRun fs cwd f j v).1 = Except.ok t →
    resolveRun fs cwd (f + 1) j v = resolveRun fs cwd f j v := by
  intro f
  induction f with
  | zero =>
    intro j v t h
    rw [resolveRun_zero] at h
    simp at h
  | succ f ih =>
    intro j v t h
    cases j with
    | file p =>
      rw [resolveRun_file] at h
      rw [resolveRun_file, resolveRun_file]
      exact fileStep_mono fs cwd (resolveRun fs cwd f) (resolveRun fs cwd (f + 1))
        (fun j w t h => ih j w t h) p v t h
    | incs d ips acc =>
      rw [resolveRun_incs] at h
      rw [resolveRun_incs, resolveRun_incs]
      exact incsStep_mono (resolveRun fs cwd f) (resolveRun fs cwd (f + 1))
        (fun j w t h => ih j w t h) d ips acc v t h

theorem resolveRun_mono (fs : FS) (cwd : String) (j : ResolveJob) (v : List String) (t : String)
    (f f' : Nat) (hle : f ≤ f') (h : (resolveRun fs cwd f j v).1 = Except.ok t) :
    resolveRun fs cwd f' j v = resolveRun fs cwd f j v := by
  induction hle with
  | refl => rfl
  | @step m hm ih =>
    have hm' : (resolveRun fs cwd m j v).1 = Except.ok t := by rw [ih]; exact h
    rw [resolveRun_mono_succ fs cwd m j v t hm', ih]

theorem chainExtStep_mono
    (r1 r2 : ChainJob → List String → Except String (List String) × List String)
    (hmono : ∀ j w c, (r1 j w).1 = Except.ok c → r2 j w = r1 j w)
    (fm : Frontmatter) (ap : String) (v : List String) (ch : List String)
    (h : (chainExtStep r1 fm ap v).1 = Except.ok ch) :
    chainExtStep r2 fm ap v = chainExtStep r1 fm ap v := by
  by_cases hxt : fm.Extends = ""
  · rw [chainExtStep_noext r2 fm ap v hxt, chainExtStep_noext r1 fm ap v hxt]
  · rw [chainExtStep_ext r2 fm ap v hxt, chainExtStep_ext r1 fm ap v hxt]
    rw [chainExtStep_ext r1 fm ap v hxt] at h
    cases hr : r1 (ChainJob.file (resolvePath fm.Extends (filepathDir ap))) (ap :: v) with
    | mk re ve =>
      cases re with
      | error e => simp [hr] at h
      | ok ec =>
        have h2 := hmono (ChainJob.file (resolvePath fm.Extends (filepathDir ap))) (ap :: v) ec
          (by rw [hr])
        rw [h2, hr]

theorem chainFileStepBody_mono (fs : FS) (cwd : String)
    (r1 r2 : ChainJob → List String → Except String (List String) × List String)
    (hmono : ∀ j w c, (r1 j w).1 = Except.ok c → r2 j w = r1 j w)
    (ap : String) (v : List String) (c : List String)
    (h : (chainFileStepBody fs cwd r1 ap v).1 = Except.ok c) :
    chainFileStepBody fs cwd r2 ap v = chainFileStepBody fs cwd r1 ap v := by
  cases hfs : fs ap with
  | none =>
    rw [chainFileStepBody_none fs cwd r2 ap v hfs, chainFileStepBody_none fs cwd r1 ap v hfs]
  | some text =>
    cases hp : ParseFrontmatter text with
    | error e =>
      rw [chainFileStepBody_parseErr fs cwd r2 ap v text e hfs hp,
        chainFileStepBody_parseErr fs cwd r1 ap v text e hfs hp]
    | ok pr =>
      obtain ⟨fm, content⟩ := pr
      rw [chainFileStepBody_ok fs cwd r2 ap v text fm content hfs hp,
        chainFileStepBody_ok fs cwd r1 ap v text fm content hfs hp]
      rw [chainFileStepBody_ok fs cwd r1 ap v text fm content hfs hp] at h
      cases hx : chainExtStep r1 fm ap v with
      | mk re ve =>
        cases re with
        | error e => simp [hx] at h
        | ok ch =>
          rw [chainExtStep_mono r1 r2 hmono fm ap v ch (by rw [hx]), hx]
          simp only [hx] at h
          exact hmono (ChainJob.incs (filepathDir ap) fm.Includes ch) ve c h

theorem chainIncsStep_mono
    (r1 r2 : ChainJob → List String → Except String (List String) × List String)
    (hmono : ∀ j w c, (r1 j w).1 = Except.ok c → r2 j w = r1 j w)
    (d : String) (ips : List String) (acc : List String) (v : List String) (c : List String)
    (h : (chainIncsStep r1 d ips acc v).1 = Except.ok c) :
    chainIncsStep r2 d ips acc v = chainIncsStep r1 d ips acc v := by
  cases ips with
  | nil => rfl
  | cons ip rest =>
    rw [chainIncsStep_cons r2 d ip rest acc v, chainIncsStep_cons r1 d ip rest acc v]
    rw [chainIncsStep_cons r1 d ip rest acc v] at h
    cases hr : r1 (ChainJob.file (resolvePath ip d)) v with
    | mk re ve =>
      cases re with
      | error e => simp [hr] at h
      | ok cc =>
        rw [hmono (ChainJob.file (resolvePath ip d)) v cc (by rw [hr]), hr]
        simp only [hr] at h
        exact hmono (ChainJob.incs d rest (acc ++ cc)) ve c h

theorem chainFileStep_mono (fs : FS) (cwd : String)
    (r1 r2 : ChainJob → List String → Except String (List String) × List String)
    (hmono : ∀ j w c, (r1 j w).1 = Except.ok c → r2 j w = r1 j w)
    (p : String) (v : List String) (c : List String)
    (h : (chainFileStep fs cwd r1 p v).1 = Except.ok c) :
    chainFileStep fs cwd r2 p v = chainFileStep fs cwd r1 p v := by
  rw [chainFileStep_eq fs cwd r2 p v, chainFileStep_eq fs cwd r1 p v]
  rw [chainFileStep_eq fs cwd r1 p v] at h
  by_cases hc : v.contains (filepathAbs cwd p) = true
  · rw [if_pos hc, if_pos hc]
  · rw [if_neg hc] at h
    rw [if_neg hc, if_neg hc]
    have h' : (chainFileStepBody fs cwd r1 (filepathAbs cwd p) v).1 = Except.ok c := by
      simpa using h
    rw [chainFileStepBody_mono fs cwd r1 r2 hmono (filepathAbs cwd p) v c h']

theorem chainRun_mono_succ (fs : FS) (cwd : String) :
    ∀ (f : Nat) (j : ChainJob) (v : List String) (c : List String),
    (chainRun fs cwd f j v).1 = Except.ok c →
    chainRun fs cwd (f + 1) j v = chainRun fs cwd f j v := by
  intro f
  induction f with
  | zero =>
    intro j v c h
    rw [chainRun_zero] at h
    simp at h
  | succ f ih =>
    intro j v c h
    cases j with
    | file p =>
      rw [chainRun_file] at h
      rw [chainRun_file, chainRun_file]
      exact chainFileStep_mono fs cwd (chainRun fs cwd f) (chainRun fs cwd (f + 1))
        (fun j w c h => ih j w c h) p v c h
    | incs d ips acc =>
      rw [chainRun_incs] at h
      rw [chainRun_incs, chainRun_incs]
      exact chainIncsStep_mono (chainRun fs cwd f) (chainRun fs cwd (f + 1))
        (fun j w c h => ih j w c h) d ips acc v c h

theorem chainRun_mono (fs : FS) (cwd : String) (j : ChainJob) (v : List String)
    (c : List String) (f f' : Nat) (hle : f ≤ f')
    (h : (chainRun fs cwd f j v).1 = Except.ok c) :
    chainRun fs cwd f' j v = chainRun fs cwd f j v := by
  induction hle with
  | refl => rfl
  | @step m hm ih =>
    have hm' : (chainRun fs cwd m j v).1 = Except.ok c := by rw [ih]; exact h
    rw [chainRun_mono_succ fs cwd m j v c hm', ih]

/-! ## Characterizations of successful runs -/

theorem resolveRun_file_ok_trimmed (fs : FS) (cwd : String) (fuel : Nat) (p : String)
    (v : List String) (t : String)
    (h : (resolveRun fs cwd fuel (ResolveJob.file p) v).1 = Except.ok t) :
    trimSpace t = t := by
  cases fuel with
  | zero => rw [resolveRun_zero] at h; simp at h
  | succ f =>
    rw [resolveRun_file, fileStep_eq] at h
    by_cases hc : v.contains (filepathAbs cwd p) = true
    · rw [if_pos hc] at h; simp at h
    · rw [if_neg hc] at h
      have h' : (fileStepBody fs cwd (resolveRun fs cwd f) (filepathAbs cwd p) v).1 =
          Except.ok t := by simpa using h
      cases hfs : fs (filepathAbs cwd p) with
      | none =>
        rw [fileStepBody_none fs cwd (resolveRun fs cwd f) (filepathAbs cwd p) v hfs] at h'
        simp at h'
      | some text =>
        cases hp : ParseFrontmatter text with
        | error e =>
          rw [fileStepBody_parseErr fs cwd (resolveRun fs cwd f) (filepathAbs cwd p) v
            text e hfs hp] at h'
          simp at h'
        | ok pr =>
          obtain ⟨fm, content⟩ := pr
          rw [fileStepBody_ok fs cwd (resolveRun fs cwd f) (filepathAbs cwd p) v
            text fm content hfs hp] at h'
          cases hx : extStep (resolveRun fs cwd f) fm (filepathAbs cwd p) v with
          | mk re ve =>
            cases re with
            | error e => simp [hx] at h'
            | ok acc =>
              simp only [hx] at h'
              cases hr : resolveRun fs cwd f
                  (ResolveJob.incs (filepathDir (filepathAbs cwd p)) fm.Includes acc) ve with
              | mk r3 v3 =>
                cases r3 with
                | error e => simp [hr] at h'
                | ok acc2 =>
                  simp only [hr] at h'
                  have ht : trimSpace (if content ≠ "" then acc2 ++ content else acc2) = t := by
                    simpa using h'
                  rw [← ht, trimSpace_idem]

theorem resolveRun_incs_spec (fs : FS) (cwd d : String) (v : List String) :
    ∀ (ips ts : List String) (fp : Nat),
    List.Forall₂ (fun ip t => ∀ f, fp ≤ f →
      resolveRun fs cwd f (ResolveJob.file (resolvePath ip d)) v = (Except.ok t, v)) ips ts →
    ∀ (acc : String) (f : Nat), fp + ips.length + 1 ≤ f →
    resolveRun fs cwd f (ResolveJob.incs d ips acc) v =
      (Except.ok (ts.foldl segAppend acc), v) := by
  intro ips ts fp hall
  induction hall with
  | nil =>
    intro acc f hf
    cases f with
    | zero => omega
    | succ g =>
      rw [resolveRun_incs, incsStep_nil]
      rfl
  | @cons ip t ips' ts' hip hrest ih =>
    intro acc f hf
    cases f with
    | zero => simp at hf
    | succ g =>
      rw [resolveRun_incs, incsStep_cons]
      have h1 := hip g (by simp at hf; omega)
      simp only [h1]
      have h2 := ih (segAppend acc t) g (by simp at hf; omega)
      simpa using h2

theorem chainRun_incs_spec (fs : FS) (cwd d : String) (v : List String) :
    ∀ (ips : List String) (cs : List (List String)) (fp : Nat),
    List.Forall₂ (fun ip c => ∀ f, fp ≤ f →
      chainRun fs cwd f (ChainJob.file (resolvePath ip d)) v = (Except.ok c, v)) ips cs →
    ∀ (acc : List String) (f : Nat), fp + ips.length + 1 ≤ f →
    chainRun fs cwd f (ChainJob.incs d ips acc) v =
      (Except.ok (cs.foldl (fun a c => a ++ c) acc), v) := by
  intro ips cs fp hall
  induction hall with
  | nil =>
    intro acc f hf
    cases f with
    | zero => omega
    | succ g =>
      rw [chainRun_incs, chainIncsStep_nil]
      rfl
  | @cons ip c ips' cs' hip hrest ih =>
    intro acc f hf
    cases f with
    | zero => simp at hf
    | succ g =>
      rw [chainRun_incs, chainIncsStep_cons]
      have h1 := hip g (by simp at hf; omega)
      simp only [h1]
      have h2 := ih (acc ++ c) g (by simp at hf; omega)
      simpa using h2

/-! ## Parser helper lemmas -/

theorem pfLoop_false (fm : List String) :
    ∀ (rest acc : List String), pfLoop false fm acc rest = (fm, acc ++ rest) := by
  intro rest
  induction rest with
  | nil => intro acc; simp [pfLoop]
  | cons l ls ih =>
    intro acc
    rw [show pfLoop false fm acc (l :: ls) = pfLoop false fm (acc ++ [l]) ls from rfl, ih]
    simp

theorem pfLoop_true_noclose :
    ∀ (rest : List String) (fm acc : List String),
    (∀ l ∈ rest, trimSpace l ≠ frontmatterSeparator) →
    pfLoop true fm acc rest = (fm ++ rest, acc) := by
  intro rest
  induction rest with
  | nil => intro fm acc _; simp [pfLoop]
  | cons l ls ih =>
    intro fm acc h
    have hl : trimSpace l ≠ frontmatterSeparator := h l (List.mem_cons_self l ls)
    rw [show pfLoop true fm acc (l :: ls) =
      (if trimSpace l = frontmatterSeparator then pfLoop false fm acc ls
       else pfLoop true (fm ++ [l]) acc ls) from rfl]
    rw [if_neg hl, ih (fm ++ [l]) acc (fun x hx => h x (List.mem_cons_of_mem l hx))]
    simp

theorem ParseFrontmatter_no_header (text : String)
    (hnh : ∀ l ls, goLines text = l :: ls → trimSpace l ≠ frontmatterSeparator) :
    ParseFrontmatter text =
      Except.ok ({ Extends := "", Includes := [] },
        String.intercalate "\n" (goLines text)) := by
  simp only [ParseFrontmatter]
  cases hg : goLines text with
  | nil => rfl
  | cons l ls =>
    rw [show parseFrontmatterLines (l :: ls) =
      (if trimSpace l = frontmatterSeparator then pfLoop true [] [] ls
       else pfLoop false [] [l] ls) from rfl]
    rw [if_neg (hnh l ls hg), pfLoop_false]
    rfl

theorem ParseFrontmatter_empty_header (text : String) (rest : List String)
    (h : goLines text = frontmatterSeparator :: frontmatterSeparator :: rest) :
    ParseFrontmatter text =
      Except.ok ({ Extends := "", Includes := [] }, String.intercalate "\n" rest) := by
  simp only [ParseFrontmatter]
  rw [h]
  rw [show parseFrontmatterLines (frontmatterSeparator :: frontmatterSeparator :: rest) =
    pfLoop false [] [] rest from rfl]
  rw [pfLoop_false]
  rfl

/-! ## Resolution only looks at a file through its parse -/

/-- Two filesystem entries are observationally equal for the resolver when
both are missing, or both are present and parse identically. -/
def parseEquiv : Option String → Option String → Prop
  | none, none => True
  | some t1, some t2 => ParseFrontmatter t1 = ParseFrontmatter t2
  | _, _ => False

theorem parseEquiv_refl (o : Option String) : parseEquiv o o := by
  cases o <;> simp [parseEquiv]

theorem fileStepBody_fs_congr (fs1 fs2 : FS) (cwd : String)
    (recur : ResolveJob → List String → Except String String × List String)
    (ap : String) (v : List String) (h : parseEquiv (fs1 ap) (fs2 ap)) :
    fileStepBody fs1 cwd recur ap v = fileStepBody fs2 cwd recur ap v := by
  cases h1 : fs1 ap with
  | none =>
    cases h2 : fs2 ap with
    | none => rw [fileStepBody_none fs1 cwd recur ap v h1, fileStepBody_none fs2 cwd recur ap v h2]
    | some t2 => rw [h1, h2] at h; simp [parseEquiv] at h
  | some t1 =>
    cases h2 : fs2 ap with
    | none => rw [h1, h2] at h; simp [parseEquiv] at h
    | some t2 =>
      rw [h1, h2] at h
      have hp : ParseFrontmatter t1 = ParseFrontmatter t2 := h
      cases hp2 : ParseFrontmatter t2 with
      | error e =>
        rw [fileStepBody_parseErr fs1 cwd recur ap v t1 e h1 (hp.trans hp2),
          fileStepBody_parseErr fs2 cwd recur ap v t2 e h2 hp2]
      | ok pr =>
        obtain ⟨fm, content⟩ := pr
        rw [fileStepBody_ok fs1 cwd recur ap v t1 fm content h1 (hp.trans hp2),
          fileStepBody_ok fs2 cwd recur ap v t2 fm content h2 hp2]

theorem resolveRun_fs_congr (fs1 fs2 : FS) (cwd : String)
    (h : ∀ q, parseEquiv (fs1 q) (fs2 q)) :
    ∀ (fuel : Nat) (j : ResolveJob) (v : List String),
    resolveRun fs1 cwd fuel j v = resolveRun fs2 cwd fuel j v := by
  intro fuel
  induction fuel with
  | zero => intro j v; rfl
  | succ f ih =>
    have hfun : resolveRun fs1 cwd f = resolveRun fs2 cwd f :=
      funext (fun j => funext (fun v => ih j v))
    intro j v
    cases j with
    | file p =>
      rw [resolveRun_file, resolveRun_file, fileStep_eq, fileStep_eq, hfun,
        fileStepBody_fs_congr fs1 fs2 cwd (resolveRun fs2 cwd f) (filepathAbs cwd p) v
          (h (filepathAbs cwd p))]
    | incs d ips acc =>
      rw [resolveRun_incs, resolveRun_incs, hfun]

/-! ## The claims -/

/-- C4: every call of `Resolve` and of `GetDependencyChain` returns the
visited context exactly as it received it, on every exit path (success or
any failure), so the context holds exactly the active ancestors; and a
diamond — a file referenced from two independent non-cyclic branches —
resolves successfully with its content appearing in both branches. -/
theorem claim4_context_restored (fs : FS) (cwd : String) (fuel : Nat) (p : String)
    (v : List String) :
    (Resolve fs cwd fuel p v).2 = v ∧
    (GetDependencyChain fs cwd fuel p v).2 = v ∧
    Resolve (fun q =>
      if q = "/top.md" then some "---\nincludes:\n  - mid1.md\n  - mid2.md\n---\nTOP"
      else if q = "/mid1.md" then some "---\nextends: base.md\n---\nM1"
      else if q = "/mid2.md" then some "---\nextends: base.md\n---\nM2"
      else if q = "/base.md" then some "SHARED"
      else none) "/" 10 "/top.md" [] =
      (Except.ok ("SHARED\n\nM1\n\nSHARED\n\nM2\n\nTOP"), []) :=
  ⟨Resolve_visited fs cwd fuel p v, GetDependencyChain_visited fs cwd fuel p v, rfl⟩

/-- C7: `ValidateChain` returns exactly the error (or success) that
`Resolve` from a fresh context returns, with the text discarded. -/
theorem claim7_validate_refines_resolve (fs : FS) (cwd : String) (fuel : Nat) (p : String) :
    (ValidateChain fs cwd fuel p = none ↔ ∃ t, (Resolve fs cwd fuel p []).1 = Except.ok t) ∧
    (∀ e, ValidateChain fs cwd fuel p = some e ↔
      (Resolve fs cwd fuel p []).1 = Except.error e) := by
  cases h : (Resolve fs cwd fuel p []).1 with
  | ok t =>
    constructor
    · simp [ValidateChain, h]
    · intro e
      simp [ValidateChain, h]
  | error e =>
    constructor
    · simp [ValidateChain, h]
    · intro e'
      simp [ValidateChain, h]

/-- C10: trimming is applied to the result of every recursive `Resolve`
call (every successful result is a fixed point of `trimSpace`), so the
text each parent or peer contributes is already trimmed before its
blank-line separator is appended; concretely, a parent body wrapped in
blank lines still yields exactly one blank line before the child body. -/
theorem claim10_recursive_trimming (fs : FS) (cwd : String) (fuel : Nat) (p : String)
    (v : List String) :
    (∀ t v', Resolve fs cwd fuel p v = (Except.ok t, v') → trimSpace t = t) ∧
    Resolve (fun q =>
      if q = "/child.md" then some "---\nextends: base.md\n---\nC"
      else if q = "/base.md" then some "\n\nB\n\n\n"
      else none) "/" 10 "/child.md" [] = (Except.ok ("B\n\nC"), []) := by
  constructor
  · intro t v' h
    exact resolveRun_file_ok_trimmed fs cwd fuel p v t
      (by rw [show resolveRun fs cwd fuel (ResolveJob.file p) v = (Except.ok t, v') from h])
  · rfl

/-- Witness for C10 at a concrete run: the resolved text of the concrete
child file is a `trimSpace` fixed point. -/
theorem claim10_witness : trimSpace ("B\n\nC") = "B\n\nC" :=
  (claim10_recursive_trimming (fun q =>
      if q = "/child.md" then some "---\nextends: base.md\n---\nC"
      else if q = "/base.md" then some "\n\nB\n\n\n"
      else none) "/" 10 "/child.md" []).1 ("B\n\nC") [] rfl

/-- C2 (amended): whenever the normalized path is already in the visited
context, `Resolve` and `GetDependencyChain` fail immediately with a
circular-dependency error naming that path, for every filesystem — so no
file I/O for that path can influence the result; consequently the
canonical direct (A→B→A) and transitive (A→B→C→A) cycles, via `extends`
or via `includes`, fail with a circular-dependency error naming the path
that closed the cycle.  (The original claim is false when an earlier
reference fails before the traversal reaches the cycle; see the
counterexample.) -/
theorem claim2_cycle_amended (fs : FS) (cwd : String) (fuel : Nat) (p : String)
    (v : List String) (h : v.contains (filepathAbs cwd p) = true) :
    Resolve fs cwd (fuel + 1) p v =
      (Except.error ("circular dependency detected: " ++ filepathAbs cwd p), v) ∧
    GetDependencyChain fs cwd (fuel + 1) p v =
      (Except.error ("circular dependency detected: " ++ filepathAbs cwd p), v) ∧
    (Resolve (fun q =>
        if q = "/a.md" then some "---\nextends: b.md\n---\nA"
        else if q = "/b.md" then some "---\nextends: a.md\n---\nB"
        else none) "/" 10 "/a.md" []).1 =
      Except.error ("error resolving extends file /b.md: error resolving extends file " ++
        "/a.md: circular dependency detected: /a.md") ∧
    (GetDependencyChain (fun q =>
        if q = "/a.md" then some "---\nextends: b.md\n---\nA"
        else if q = "/b.md" then some "---\nextends: a.md\n---\nB"
        else none) "/" 10 "/a.md" []).1 =
      Except.error ("circular dependency detected: /a.md") ∧
    (Resolve (fun q =>
        if q = "/a.md" then some "---\nextends: b.md\n---\nA"
        else if q = "/b.md" then some "---\nextends: c.md\n---\nB"
        else if q = "/c.md" then some "---\nextends: a.md\n---\nC"
        else none) "/" 10 "/a.md" []).1 =
      Except.error ("error resolving extends file /b.md: error resolving extends file " ++
        "/c.md: error resolving extends file /a.md: circular dependency detected: /a.md") ∧
    (GetDependencyChain (fun q =>
        if q = "/a.md" then some "---\nextends: b.md\n---\nA"
        else if q = "/b.md" then some "---\nextends: c.md\n---\nB"
        else if q = "/c.md" then some "---\nextends: a.md\n---\nC"
        else none) "/" 10 "/a.md" []).1 =
      Except.error ("circular dependency detected: /a.md") ∧
    (Resolve (fun q =>
        if q = "/a.md" then some "---\nincludes:\n  - b.md\n---\nA"
        else if q = "/b.md" then some "---\nincludes:\n  - a.md\n---\nB"
        else none) "/" 10 "/a.md" []).1 =
      Except.error ("error resolving include file /b.md: error resolving include file " ++
        "/a.md: circular dependency detected: /a.md") := by
  refine ⟨?_, ?_, rfl, rfl, rfl, rfl, rfl⟩
  · unfold Resolve
    rw [resolveRun_file, fileStep_eq, if_pos h]
  · unfold GetDependencyChain
    rw [chainRun_file, chainFileStep_eq, if_pos h]

/-- Witness for C2 (amended) at a concrete input: a path already in the
context is rejected immediately with the circular-dependency error, on a
filesystem with no files at all. -/
theorem claim2_witness :
    Resolve (fun _ => none) "/" 4 "/x.md" ["/x.md"] =
      (Except.error ("circular dependency detected: /x.md"), ["/x.md"]) ∧
    GetDependencyChain (fun _ => none) "/" 4 "/x.md" ["/x.md"] =
      (Except.error ("circular dependency detected: /x.md"), ["/x.md"]) := by
  have h := claim2_cycle_amended (fun _ => none) "/" 3 "/x.md" ["/x.md"] (by decide)
  exact ⟨h.1, h.2.1⟩

/-- Counterexample for C2 as stated: in the graph where `/a.md` includes
`missing.md` and then `a.md` itself, the start file lies on a direct
include cycle (its own include list names it), yet both `Resolve` and
`GetDependencyChain` fail with a file-access error for the earlier
missing include, not with a circular-dependency error. -/
theorem claim2_counterexample :
    ParseFrontmatter ("---\nincludes:\n  - missing.md\n  - a.md\n---\nA") =
      Except.ok ({ Extends := "", Includes := ["missing.md", "a.md"] }, "A") ∧
    resolvePath ("a.md") (filepathDir "/a.md") = "/a.md" ∧
    (Resolve (fun q =>
        if q = "/a.md" then some "---\nincludes:\n  - missing.md\n  - a.md\n---\nA"
        else none) "/" 10 "/a.md" []).1 =
      Except.error ("error resolving include file /missing.md: error opening file " ++
        "/missing.md: open /missing.md: no such file or directory") ∧
    strContains ("error resolving include file /missing.md: error opening file " ++
      "/missing.md: open /missing.md: no such file or directory")
      ("circular dependency") = false ∧
    (GetDependencyChain (fun q =>
        if q = "/a.md" then some "---\nincludes:\n  - missing.md\n  - a.md\n---\nA"
        else none) "/" 10 "/a.md" []).1 =
      Except.error ("error opening file /missing.md: open /missing.md: " ++
        "no such file or directory") :=
  ⟨rfl, rfl, rfl, by decide, rfl⟩

theorem forall₂_ok_trimmed (fs : FS) (cwd d : String) (w : List String) (fp : Nat) :
    ∀ (ips ts : List String),
    List.Forall₂ (fun ip t =>
      (resolveRun fs cwd fp (ResolveJob.file (resolvePath ip d)) w).1 = Except.ok t) ips ts →
    ∀ t ∈ ts, trimSpace t = t := by
  intro ips ts h
  induction h with
  | nil => intro t ht; simp at ht
  | @cons ip t' ips' ts' hip hrest ih =>
    intro t ht
    rcases List.mem_cons.mp ht with heq | hm
    · subst heq
      exact resolveRun_file_ok_trimmed fs cwd fp _ w t hip
    · exact ih t hm

/-- C1: for a file with both a parent and peers whose recursive
resolutions succeed, `Resolve` returns the parent text, then each peer
text in the declared order, then the file's own body, folded with
`segAppend` — which writes each non-empty segment followed by exactly one
blank line (two newline characters) and skips empty segments without a
separator — with no separator after the body and the final trim removing
any trailing blank line; the parent and peer segments are themselves
already trimmed. -/
theorem claim1_ordering (fs : FS) (cwd p : String) (v : List String)
    (text : String) (fm : Frontmatter) (content tp : String) (ts : List String) (fp : Nat)
    (hv : v.contains (filepathAbs cwd p) = false)
    (hfile : fs (filepathAbs cwd p) = some text)
    (hparse : ParseFrontmatter text = Except.ok (fm, content))
    (hext : fm.Extends ≠ "")
    (hincs : fm.Includes ≠ [])
    (hep : (resolveRun fs cwd fp
      (ResolveJob.file (resolvePath fm.Extends (filepathDir (filepathAbs cwd p))))
      (filepathAbs cwd p :: v)).1 = Except.ok tp)
    (hps : List.Forall₂ (fun ip t => (resolveRun fs cwd fp
      (ResolveJob.file (resolvePath ip (filepathDir (filepathAbs cwd p))))
      (filepathAbs cwd p :: v)).1 = Except.ok t) fm.Includes ts) :
    (∀ f, fp + fm.Includes.length + 2 ≤ f →
      Resolve fs cwd f p v = (Except.ok (trimSpace (segcat (tp :: ts) ++ content)), v)) ∧
    trimSpace tp = tp ∧ (∀ t ∈ ts, trimSpace t = t) := by
  have hep' : ∀ f, fp ≤ f →
      resolveRun fs cwd f
        (ResolveJob.file (resolvePath fm.Extends (filepathDir (filepathAbs cwd p))))
        (filepathAbs cwd p :: v) = (Except.ok tp, filepathAbs cwd p :: v) := by
    intro f hf
    have heq : resolveRun fs cwd fp
        (ResolveJob.file (resolvePath fm.Extends (filepathDir (filepathAbs cwd p))))
        (filepathAbs cwd p :: v) = (Except.ok tp, filepathAbs cwd p :: v) :=
      Prod.ext hep (resolveRun_visited fs cwd fp _ _)
    rw [resolveRun_mono fs cwd _ _ tp fp f hf hep, heq]
  have hps' : List.Forall₂ (fun ip t => ∀ f, fp ≤ f →
      resolveRun fs cwd f
        (ResolveJob.file (resolvePath ip (filepathDir (filepathAbs cwd p))))
        (filepathAbs cwd p :: v) = (Except.ok t, filepathAbs cwd p :: v)) fm.Includes ts := by
    refine List.Forall₂.imp ?_ hps
    intro ip t hok f hf
    have heq : resolveRun fs cwd fp
        (ResolveJob.file (resolvePath ip (filepathDir (filepathAbs cwd p))))
        (filepathAbs cwd p :: v) = (Except.ok t, filepathAbs cwd p :: v) :=
      Prod.ext hok (resolveRun_visited fs cwd fp _ _)
    rw [resolveRun_mono fs cwd _ _ t fp f hf hok, heq]
  refine ⟨?_, ?_, ?_⟩
  · intro f hf
    cases f with
    | zero => omega
    | succ g =>
      unfold Resolve
      rw [resolveRun_file, fileStep_eq, if_neg (by simpa using hv),
        fileStepBody_ok fs cwd (resolveRun fs cwd g) (filepathAbs cwd p) v text fm content
          hfile hparse,
        extStep_ext (resolveRun fs cwd g) fm (filepathAbs cwd p) v hext]
      have hgp : fp ≤ g := by omega
      simp only [hep' g hgp]
      have hincsrun := resolveRun_incs_spec fs cwd (filepathDir (filepathAbs cwd p))
        (filepathAbs cwd p :: v) fm.Includes ts fp hps' (segAppend "" tp) g (by omega)
      simp only [hincsrun]
      rw [List.erase_cons_head]
      by_cases hc : content = ""
      · subst hc
        simp [segcat, str_append_nil]
      · simp [hc, segcat]
  · exact resolveRun_file_ok_trimmed fs cwd fp _ _ tp hep
  · exact forall₂_ok_trimmed fs cwd (filepathDir (filepathAbs cwd p))
      (filepathAbs cwd p :: v) fp fm.Includes ts hps

/-- Witness for C1 at a concrete three-file chain: the parent text
precedes the peer text, which precedes the own body, with one blank line
between each pair. -/
theorem claim1_witness :
    Resolve (fun q =>
      if q = "/c.md" then some "---\nextends: p.md\nincludes:\n  - q.md\n---\nC"
      else if q = "/p.md" then some "P"
      else if q = "/q.md" then some "Q"
      else none) "/" 10 "/c.md" [] = (Except.ok ("P\n\nQ\n\nC"), []) := by
  refine (claim1_ordering (fun q =>
      if q = "/c.md" then some "---\nextends: p.md\nincludes:\n  - q.md\n---\nC"
      else if q = "/p.md" then some "P"
      else if q = "/q.md" then some "Q"
      else none) "/" "/c.md" []
    ("---\nextends: p.md\nincludes:\n  - q.md\n---\nC")
    { Extends := "p.md", Includes := ["q.md"] } "C" "P" ["Q"] 5
    rfl rfl rfl (by decide) (by decide) rfl ?_).1 10 (by decide)
  exact List.Forall₂.cons rfl List.Forall₂.nil

theorem foldl_append_flatten (cs : List (List String)) :
    ∀ acc : List String, cs.foldl (fun a c => a ++ c) acc = acc ++ cs.flatten := by
  induction cs with
  | nil => intro acc; simp
  | cons c cs ih =>
    intro acc
    simp only [List.foldl_cons, List.flatten_cons, ih (acc ++ c), List.append_assoc]

/-- C3 (amended): for a successful `GetDependencyChain` traversal of a
file with a parent and peers whose recursive traversals succeed, the
chain is the fully collected parent chain, then the file itself, then
each peer's chain appended **after** the file, peers in declared order.
(The original claim places the peer chains before the file; the
counterexample shows the code appends them after it.) -/
theorem claim3_chain_amended (fs : FS) (cwd p : String) (v : List String)
    (text : String) (fm : Frontmatter) (content : String) (ec : List String)
    (cs : List (List String)) (fp : Nat)
    (hv : v.contains (filepathAbs cwd p) = false)
    (hfile : fs (filepathAbs cwd p) = some text)
    (hparse : ParseFrontmatter text = Except.ok (fm, content))
    (hext : fm.Extends ≠ "")
    (hec : (chainRun fs cwd fp
      (ChainJob.file (resolvePath fm.Extends (filepathDir (filepathAbs cwd p))))
      (filepathAbs cwd p :: v)).1 = Except.ok ec)
    (hcs : List.Forall₂ (fun ip c => (chainRun fs cwd fp
      (ChainJob.file (resolvePath ip (filepathDir (filepathAbs cwd p))))
      (filepathAbs cwd p :: v)).1 = Except.ok c) fm.Includes cs) :
    ∀ f, fp + fm.Includes.length + 2 ≤ f →
      GetDependencyChain fs cwd f p v =
        (Except.ok (ec ++ filepathAbs cwd p :: cs.flatten), v) := by
  have hec' : ∀ f, fp ≤ f →
      chainRun fs cwd f
        (ChainJob.file (resolvePath fm.Extends (filepathDir (filepathAbs cwd p))))
        (filepathAbs cwd p :: v) = (Except.ok ec, filepathAbs cwd p :: v) := by
    intro f hf
    have heq : chainRun fs cwd fp
        (ChainJob.file (resolvePath fm.Extends (filepathDir (filepathAbs cwd p))))
        (filepathAbs cwd p :: v) = (Except.ok ec, filepathAbs cwd p :: v) :=
      Prod.ext hec (chainRun_visited fs cwd fp _ _)
    rw [chainRun_mono fs cwd _ _ ec fp f hf hec, heq]
  have hcs' : List.Forall₂ (fun ip c => ∀ f, fp ≤ f →
      chainRun fs cwd f
        (ChainJob.file (resolvePath ip (filepathDir (filepathAbs cwd p))))
        (filepathAbs cwd p :: v) = (Except.ok c, filepathAbs cwd p :: v)) fm.Includes cs := by
    refine List.Forall₂.imp ?_ hcs
    intro ip c hok f hf
    have heq : chainRun fs cwd fp
        (ChainJob.file (resolvePath ip (filepathDir (filepathAbs cwd p))))
        (filepathAbs cwd p :: v) = (Except.ok c, filepathAbs cwd p :: v) :=
      Prod.ext hok (chainRun_visited fs cwd fp _ _)
    rw [chainRun_mono fs cwd _ _ c fp f hf hok, heq]
  intro f hf
  cases f with
  | zero => omega
  | succ g =>
    unfold GetDependencyChain
    rw [chainRun_file, chainFileStep_eq, if_neg (by simpa using hv),
      chainFileStepBody_ok fs cwd (chainRun fs cwd g) (filepathAbs cwd p) v text fm content
        hfile hparse,
      chainExtStep_ext (chainRun fs cwd g) fm (filepathAbs cwd p) v hext]
    have hgp : fp ≤ g := by omega
    simp only [hec' g hgp]
    have hincsrun := chainRun_incs_spec fs cwd (filepathDir (filepathAbs cwd p))
      (filepathAbs cwd p :: v) fm.Includes cs fp hcs' (ec ++ [filepathAbs cwd p]) g (by omega)
    simp only [hincsrun]
    rw [List.erase_cons_head, foldl_append_flatten]
    simp [List.append_assoc]

/-- Witness for C3 (amended) at a concrete graph: parent chain first,
then the file, then the peer chain after it. -/
theorem claim3_witness :
    GetDependencyChain (fun q =>
      if q = "/leaf.md" then some "---\nextends: parent.md\nincludes:\n  - inc.md\n---\nL"
      else if q = "/parent.md" then some "PAR"
      else if q = "/inc.md" then some "INC"
      else none) "/" 10 "/leaf.md" [] =
      (Except.ok (["/parent.md", "/leaf.md", "/inc.md"]), []) := by
  refine claim3_chain_amended (fun q =>
      if q = "/leaf.md" then some "---\nextends: parent.md\nincludes:\n  - inc.md\n---\nL"
      else if q = "/parent.md" then some "PAR"
      else if q = "/inc.md" then some "INC"
      else none) "/" "/leaf.md" []
    ("---\nextends: parent.md\nincludes:\n  - inc.md\n---\nL")
    { Extends := "parent.md", Includes := ["inc.md"] } "L" ["/parent.md"] [["/inc.md"]] 5
    rfl rfl rfl (by decide) rfl ?_ 10 (by decide)
  exact List.Forall₂.cons rfl List.Forall₂.nil

/-- Counterexample for C3 as stated: in the concrete graph, the peer's
chain entry `/inc.md` appears after the file `/leaf.md`, not before it as
the claim requires (the claim would demand
`["/parent.md", "/inc.md", "/leaf.md"]`). -/
theorem claim3_counterexample :
    (GetDependencyChain (fun q =>
      if q = "/leaf.md" then some "---\nextends: parent.md\nincludes:\n  - inc.md\n---\nL"
      else if q = "/parent.md" then some "PAR"
      else if q = "/inc.md" then some "INC"
      else none) "/" 10 "/leaf.md" []).1 =
      Except.ok (["/parent.md", "/leaf.md", "/inc.md"]) ∧
    (["/parent.md", "/leaf.md", "/inc.md"].indexOf ("/leaf.md") <
      ["/parent.md", "/leaf.md", "/inc.md"].indexOf ("/inc.md")) ∧
    (GetDependencyChain (fun q =>
      if q = "/leaf.md" then some "---\nextends: parent.md\nincludes:\n  - inc.md\n---\nL"
      else if q = "/parent.md" then some "PAR"
      else if q = "/inc.md" then some "INC"
      else none) "/" 10 "/leaf.md" []).1 ≠
      Except.ok (["/parent.md", "/inc.md", "/leaf.md"]) :=
  ⟨rfl, by decide, fun h => absurd (Except.ok.inj h) (by decide)⟩

/-- C5 (amended): the core reports failures through wrapped message
strings, not a tagged variant.  The three reachable failure situations
produce their characteristic marker messages — the visited-set hit yields
`circular dependency detected: <path>`, a missing file yields the wrapped
`os.Open` message, a malformed header yields the wrapped parse message —
and the fourth kind (path-resolution failure) cannot occur because
absolute-path normalization is total here.  Because paths are
interpolated into the messages, marker substrings are not mutually
exclusive, so a caller cannot reliably branch on the kind (see the
counterexample). -/
theorem claim5_error_kinds_amended (fs : FS) (cwd : String) (fuel : Nat) (p : String)
    (v : List String) :
    (v.contains (filepathAbs cwd p) = true →
      (Resolve fs cwd (fuel + 1) p v).1 =
        Except.error ("circular dependency detected: " ++ filepathAbs cwd p)) ∧
    (v.contains (filepathAbs cwd p) = false → fs (filepathAbs cwd p) = none →
      (Resolve fs cwd (fuel + 1) p v).1 = Except.error (openErr (filepathAbs cwd p))) ∧
    (∀ text e, v.contains (filepathAbs cwd p) = false →
      fs (filepathAbs cwd p) = some text → ParseFrontmatter text = Except.error e →
      (Resolve fs cwd (fuel + 1) p v).1 =
        Except.error ("error parsing file " ++ filepathAbs cwd p ++ ": " ++ e)) := by
  refine ⟨?_, ?_, ?_⟩
  · intro h
    unfold Resolve
    rw [resolveRun_file, fileStep_eq, if_pos h]
  · intro h hn
    unfold Resolve
    rw [resolveRun_file, fileStep_eq, if_neg (by simpa using h),
      fileStepBody_none fs cwd (resolveRun fs cwd fuel) (filepathAbs cwd p) v hn]
  · intro text e h hs hp
    unfold Resolve
    rw [resolveRun_file, fileStep_eq, if_neg (by simpa using h),
      fileStepBody_parseErr fs cwd (resolveRun fs cwd fuel) (filepathAbs cwd p) v text e hs hp]

/-- Witness for C5 (amended): the three failure situations at concrete
inputs, each reported through its marker message. -/
theorem claim5_witness :
    (Resolve (fun _ => none) "/" 4 "/m.md" ["/m.md"]).1 =
      Except.error ("circular dependency detected: /m.md") ∧
    (Resolve (fun _ => none) "/" 4 "/m.md" []).1 =
      Except.error (openErr ("/m.md")) ∧
    (Resolve (fun q => if q = "/y.md" then some "---\nContent here" else none)
        "/" 4 "/y.md" []).1 =
      Except.error ("error parsing file /y.md: error parsing frontmatter: " ++
        "yaml: cannot unmarshal document into Frontmatter") := by
  refine ⟨?_, ?_, ?_⟩
  · exact (claim5_error_kinds_amended (fun _ => none) "/" 3 "/m.md" ["/m.md"]).1 (by decide)
  · exact (claim5_error_kinds_amended (fun _ => none) "/" 3 "/m.md" []).2.1 rfl rfl
  · exact (claim5_error_kinds_amended
      (fun q => if q = "/y.md" then some "---\nContent here" else none) "/" 3 "/y.md" []).2.2
      ("---\nContent here")
      ("error parsing frontmatter: yaml: cannot unmarshal document into Frontmatter")
      rfl rfl rfl

/-- Counterexample for C5 as stated: the caller receives only a message
string, and marker substrings are not mutually exclusive — a missing file
whose path itself contains the circular-dependency marker produces a
single file-access error message containing both the file-access marker
and the circular-dependency marker, so branching on the kind is not
reliably possible from what the call returns. -/
theorem claim5_counterexample :
    (Resolve (fun _ => none) "/" 5 ("/circular dependency detected: x") []).1 =
      Except.error (openErr ("/circular dependency detected: x")) ∧
    strContains (openErr ("/circular dependency detected: x"))
      ("circular dependency detected") = true ∧
    strContains (openErr ("/circular dependency detected: x"))
      ("error opening file") = true :=
  ⟨rfl, by decide, by decide⟩

/-- C8: an absolute reference is used as-is by `resolvePath`, a relative
one is joined onto the base directory (the directory of the declaring
file, not the working directory); paths are normalized with
`filepathAbs` before being compared with or inserted into the visited
set, so two spellings with the same normalization are resolved
identically; concretely, a relative `extends` is resolved against the
declaring file's directory even when the working directory differs, and
a self-reference spelled `../d/a.md` is caught as circular. -/
theorem claim8_path_resolution :
    (∀ pth base, filepathIsAbs pth = true → resolvePath pth base = pth) ∧
    (∀ pth base, filepathIsAbs pth = false → resolvePath pth base = filepathJoin base pth) ∧
    (∀ (fs : FS) (cwd : String) (f : Nat) (p q : String) (v : List String),
      filepathAbs cwd p = filepathAbs cwd q →
      Resolve fs cwd f p v = Resolve fs cwd f q v ∧
      GetDependencyChain fs cwd f p v = GetDependencyChain fs cwd f q v) ∧
    Resolve (fun q =>
      if q = "/d1/x.md" then some "---\nextends: b.md\n---\nX"
      else if q = "/d1/b.md" then some "B"
      else none) "/other" 10 "/d1/x.md" [] = (Except.ok ("B\n\nX"), []) ∧
    (Resolve (fun q =>
      if q = "/d/a.md" then some "---\nextends: ../d/a.md\n---\nA"
      else none) "/" 10 "/d/a.md" []).1 =
      Except.error ("error resolving extends file /d/a.md: " ++
        "circular dependency detected: /d/a.md") := by
  refine ⟨?_, ?_, ?_, rfl, rfl⟩
  · intro pth base h
    unfold resolvePath
    rw [if_pos h]
  · intro pth base h
    unfold resolvePath
    rw [if_neg (by simp [h])]
  · intro fs cwd f p q v h
    cases f with
    | zero => exact ⟨rfl, rfl⟩
    | succ g =>
      constructor
      · unfold Resolve
        rw [resolveRun_file, resolveRun_file, fileStep_eq, fileStep_eq, h]
      · unfold GetDependencyChain
        rw [chainRun_file, chainRun_file, chainFileStep_eq, chainFileStep_eq, h]

/-- Witness for C8 at concrete paths: absolute used as-is, relative
joined onto the base, and two spellings of the same file resolved
identically. -/
theorem claim8_witness :
    resolvePath ("/abs.md") ("/base") = "/abs.md" ∧
    resolvePath ("rel.md") ("/base") = filepathJoin ("/base") ("rel.md") ∧
    Resolve (fun _ => none) "/" 3 "/a/../b.md" [] = Resolve (fun _ => none) "/" 3 "/b.md" [] := by
  refine ⟨?_, ?_, ?_⟩
  · exact claim8_path_resolution.1 ("/abs.md") ("/base") rfl
  · exact claim8_path_resolution.2.1 ("rel.md") ("/base") rfl
  · exact (claim8_path_resolution.2.2.1 (fun _ => none) "/" 3 "/a/../b.md" "/b.md" [] rfl).1

/-- C6: a file whose first line is not the delimiter resolves to its body
— all its lines joined — trimmed and otherwise unchanged; and a file with
an empty header (`---` immediately followed by `---`) resolves exactly as
the same body with no header at all would, with no error. -/
theorem claim6_headers (fs : FS) (cwd : String) (fuel : Nat) (p : String) (v : List String)
    (text : String)
    (hv : v.contains (filepathAbs cwd p) = false)
    (hfile : fs (filepathAbs cwd p) = some text)
    (hnh : ∀ l ls, goLines text = l :: ls → trimSpace l ≠ frontmatterSeparator) :
    Resolve fs cwd (fuel + 2) p v =
      (Except.ok (trimSpace (String.intercalate "\n" (goLines text))), v) ∧
    (∀ (text2 text2' : String) (rest : List String),
      goLines text2 = frontmatterSeparator :: frontmatterSeparator :: rest →
      goLines text2' = rest →
      (∀ l ls, rest = l :: ls → trimSpace l ≠ frontmatterSeparator) →
      Resolve (fun q => if q = filepathAbs cwd p then some text2 else fs q) cwd fuel p v =
      Resolve (fun q => if q = filepathAbs cwd p then some text2' else fs q) cwd fuel p v) := by
  constructor
  · have hfm := ParseFrontmatter_no_header text hnh
    unfold Resolve
    rw [resolveRun_file, fileStep_eq, if_neg (by simpa using hv),
      fileStepBody_ok fs cwd (resolveRun fs cwd (fuel + 1)) (filepathAbs cwd p) v text
        { Extends := "", Includes := [] } (String.intercalate "\n" (goLines text)) hfile hfm,
      extStep_noext (resolveRun fs cwd (fuel + 1)) { Extends := "", Includes := [] }
        (filepathAbs cwd p) v rfl]
    simp only [resolveRun_incs, incsStep_nil]
    rw [List.erase_cons_head]
    by_cases hc : String.intercalate "\n" (goLines text) = ""
    · rw [hc]
      rfl
    · simp [hc, str_nil_append]
  · intro text2 text2' rest h2a h2b h2c
    have hp2 : ParseFrontmatter text2 =
        Except.ok ({ Extends := "", Includes := [] }, String.intercalate "\n" rest) :=
      ParseFrontmatter_empty_header text2 rest h2a
    have hp2' : ParseFrontmatter text2' =
        Except.ok ({ Extends := "", Includes := [] }, String.intercalate "\n" rest) := by
      have h := ParseFrontmatter_no_header text2' (fun l ls hl => h2c l ls (h2b ▸ hl))
      rw [h2b] at h
      exact h
    exact resolveRun_fs_congr _ _ cwd (fun q => by
      by_cases hq : q = filepathAbs cwd p
      · simp only [hq, if_pos rfl]
        show parseEquiv (some text2) (some text2')
        show ParseFrontmatter text2 = ParseFrontmatter text2'
        rw [hp2, hp2']
      · simp only [if_neg hq]
        exact parseEquiv_refl (fs q)) fuel (ResolveJob.file p) v

/-- Witness for C6: a concrete header-less file resolves to its trimmed
body, and a concrete empty-header file resolves exactly as the same body
with no header. -/
theorem claim6_witness :
    Resolve (fun q => if q = "/n.md" then some "# H\nBody" else none) "/" 5 "/n.md" [] =
      (Except.ok ("# H\nBody"), []) ∧
    Resolve (fun q => if q = filepathAbs "/" "/e.md" then some "---\n---\nBody"
        else (fun q2 => if q2 = "/e.md" then some "x" else none) q) "/" 5 "/e.md" [] =
      Resolve (fun q => if q = filepathAbs "/" "/e.md" then some "Body"
        else (fun q2 => if q2 = "/e.md" then some "x" else none) q) "/" 5 "/e.md" [] := by
  constructor
  · exact (claim6_headers (fun q => if q = "/n.md" then some "# H\nBody" else none)
      "/" 3 "/n.md" [] ("# H\nBody") rfl rfl (by
        intro l ls h
        have h' : (["# H", "Body"] : List String) = l :: ls := h
        injection h' with h1 _
        subst h1
        decide)).1
  · exact (claim6_headers (fun q2 => if q2 = "/e.md" then some "x" else none)
      "/" 5 "/e.md" [] ("x") rfl rfl (by
        intro l ls h
        have h' : (["x"] : List String) = l :: ls := h
        injection h' with h1 _
        subst h1
        decide)).2 ("---\n---\nBody") ("Body") ["Body"] rfl rfl (by
      intro l ls h
      injection h with h1 _
      subst h1
      decide)

theorem claim9_helper_hpl (text l : String) (ls : List String)
    (h1 : goLines text = l :: ls) (h2 : trimSpace l = frontmatterSeparator)
    (h3 : ∀ x ∈ ls, trimSpace x ≠ frontmatterSeparator) :
    parseFrontmatterLines (goLines text) = (ls, []) := by
  rw [h1, show parseFrontmatterLines (l :: ls) =
    (if trimSpace l = frontmatterSeparator then pfLoop true [] [] ls
     else pfLoop false [] [l] ls) from rfl, if_pos h2, pfLoop_true_noclose ls [] [] h3]
  rfl

/-- C9: an opened but never closed header makes `ParseFrontmatter`
accumulate every remaining line as metadata and return an empty body, so
the entire rest of the file is parsed as YAML: ordinary prose there makes
resolution fail with a header-parse error, while mapping-shaped lines are
silently consumed and the file resolves to empty content instead of its
text. -/
theorem claim9_unclosed_header (text l : String) (ls : List String)
    (h1 : goLines text = l :: ls) (h2 : trimSpace l = frontmatterSeparator)
    (h3 : ∀ x ∈ ls, trimSpace x ≠ frontmatterSeparator) :
    parseFrontmatterLines (goLines text) = (ls, []) ∧
    (∀ fm body, ParseFrontmatter text = Except.ok (fm, body) → body = "") ∧
    (Resolve (fun q => if q = "/u.md" then some "---\n# Header\nContent here" else none)
        "/" 10 "/u.md" []).1 =
      Except.error ("error parsing file /u.md: error parsing frontmatter: " ++
        "yaml: cannot unmarshal document into Frontmatter") ∧
    (Resolve (fun q => if q = "/w.md" then some "---\nfoo: bar" else none)
        "/" 10 "/w.md" []).1 = Except.ok "" := by
  have hpl := claim9_helper_hpl text l ls h1 h2 h3
  refine ⟨hpl, ?_, rfl, rfl⟩
  intro fm body h
  simp only [ParseFrontmatter, hpl] at h
  cases ls with
  | nil =>
    simp at h
    exact h.2.symm
  | cons x xs =>
    cases hy : yamlUnmarshalFM (x :: xs) with
    | error e => simp [hy] at h
    | ok fm' =>
      simp [hy] at h
      exact h.2.symm

/-- Witness for C9: a concrete unclosed header whose single remaining
line goes to the metadata buffer, leaving no content lines. -/
theorem claim9_witness :
    parseFrontmatterLines (goLines ("---\nfoo: bar")) = (["foo: bar"], []) := by
  exact (claim9_unclosed_header ("---\nfoo: bar") ("---") ["foo: bar"] rfl rfl (by
    intro x hx
    have h' : x ∈ (["foo: bar"] : List String) := hx
    rcases List.mem_singleton.mp h' with rfl
    decide)).1
